import Mathlib

/-!
Shallow embedding of the query-to-filter pipeline of `src/main.py`
(natural-language product search gateway) and proofs of the spec claims.

Modelling conventions:
* Python `float` values arising in this pipeline (prices, rating bounds) are
  modelled as `ℚ`; every numeric literal the pipeline produces comes from a
  decimal string `\d+(\.\d+)?`, which is exact in `ℚ`.
* Python strings are Lean `String`s; `str.lower()` is modelled per-character
  with `Char.toLower` (ASCII case folding, which covers every string the
  pipeline compares), `str.strip()` by dropping whitespace at both ends.
* `re.search` over the three fixed price patterns is modelled by a
  position-by-position matcher (`searchAux`) with the alternatives tried in
  the same order as the regular expressions alternation; the character
  classes of consecutive regex atoms are disjoint, so the greedy
  no-global-backtracking rendering agrees with the regex engine here.
* Network and JSON-library effects are modelled as oracle values passed to
  `nlp_search`; the decision logic on those outcomes is translated from the
  source.
-/

namespace PyNlp

open List

/-- ASCII whitespace recognised by the Python regex class `\s` and `str.strip`. -/
def isWsChar (c : Char) : Bool :=
  c == ' ' || c == '\t' || c == '\n' || c == '\r' || c == '\x0b' || c == '\x0c'

/-- `str.lower()` on the character list (ASCII case folding). -/
def pyLower (l : List Char) : List Char := l.map Char.toLower

/-- `str.strip()`: drop whitespace from both ends. -/
def pyStrip (l : List Char) : List Char :=
  ((l.dropWhile isWsChar).reverse.dropWhile isWsChar).reverse

/-- Python substring test `pat in hay`. -/
def substrB (pat : List Char) : List Char → Bool
  | [] => pat.isEmpty
  | c :: rest => pat.isPrefixOf (c :: rest) || substrB pat rest

/-- `Filters` pydantic model of `src/main.py` (line 19). -/
structure Filters where
  categories : List String := []
  keywords : List String := []
  price_min : Option ℚ := none
  price_max : Option ℚ := none
  rating_min : Option ℚ := none
  sort_by : String := "relevance"
  deriving DecidableEq, Repr

/-- `ALLOWED_SORT` of `src/main.py` (line 59). -/
def ALLOWED_SORT : List String := ["relevance", "price_asc", "price_desc", "rating_desc"]

/-- The test of line 69: phrases implying high ratings. -/
def heurRating (vl : List Char) : Bool :=
  substrB "good review".toList vl || substrB "best rated".toList vl ||
    substrB "high rating".toList vl

/-- `sanitize_sort_by` of `src/main.py` (line 62).  `if not value` is true for
the Python `None` and for the empty string. -/
def sanitize_sort_by (value : Option String) : String :=
  match value with
  | none => "relevance"
  | some s =>
    if s = "" then "relevance"
    else
      let vl := pyStrip (pyLower s.toList)
      let v := String.mk vl
      if ALLOWED_SORT.contains v then v
      else if heurRating vl then "rating_desc"
      else if substrB "cheap".toList vl then "price_asc"
      else if substrB "expensive".toList vl then "price_desc"
      else "relevance"

/-- `CATEGORY_SYNONYMS` of `src/main.py` (line 46); `none` is Python `None`. -/
def CATEGORY_SYNONYMS : List (String × Option String) :=
  [("men", some "men\x27s clothing"), ("men\x27s", some "men\x27s clothing"),
   ("women", some "women\x27s clothing"), ("women\x27s", some "women\x27s clothing"),
   ("jewelry", some "jewelery"), ("jewels", some "jewelery"),
   ("electronics", some "electronics"), ("clothes", none), ("shoes", none)]

/-- `VALID_CATEGORIES` of `src/main.py` (line 58). -/
def VALID_CATEGORIES : List String :=
  ["men\x27s clothing", "women\x27s clothing", "jewelery", "electronics"]

/-- `CATEGORY_SYNONYMS.get(lc, lc if lc in VALID_CATEGORIES else None)`
(line 82).  Every synonym value is a non-empty string, so the truthiness
test `if mapped` amounts to `mapped` being non-`None`. -/
def synGet (lc : String) : Option String :=
  match CATEGORY_SYNONYMS.lookup lc with
  | some v => v
  | none => if VALID_CATEGORIES.contains lc then some lc else none

/-- The lexicographic (by code point) string order used by the Python
`sorted` builtin. -/
def strLe (a b : String) : Prop := a.toList ≤ b.toList

instance : DecidableRel strLe := fun a b => inferInstanceAs (Decidable (a.toList ≤ b.toList))

instance : IsTotal String strLe := ⟨fun a b => le_total a.toList b.toList⟩

instance : IsTrans String strLe := ⟨fun _ _ _ h1 h2 => le_trans h1 h2⟩

instance : IsAntisymm String strLe :=
  ⟨fun _ _ h1 h2 => String.toList_inj.mp (le_antisymm h1 h2)⟩

/-- `normalize_categories` of `src/main.py` (line 78): collect the mapped
values into a set and return them sorted (`sorted(out)`); Python sorting is
stable, modelled by insertion sort. -/
def normalize_categories (cats : List String) : List String :=
  let vals := cats.filterMap (fun c => synGet (String.mk (pyStrip (pyLower c.toList))))
  (vals.dedup).insertionSort strLe

/-! ### Price-constraint extractor (`extract_price_constraints`, line 223) -/

/-- The regex digit class `\d` (ASCII digits for the inputs at hand). -/
def isDigitChar (c : Char) : Bool := c.isDigit

/-- Value of a decimal digit string. -/
def digitsToNat (ds : List Char) : Nat :=
  ds.foldl (fun n c => 10 * n + (c.toNat - '0'.toNat)) 0

/-- `float()` of an integer part and a (possibly empty) fractional part: the
exact decimal value, as a rational. -/
def ratOfParts (ip fp : List Char) : ℚ :=
  mkRat (digitsToNat (ip ++ fp)) (10 ^ fp.length)

/-- Match the regex atom `\d+(?:\.\d+)?` at the head of the input, returning
the parsed value and the rest of the input. -/
def matchNumber (l : List Char) : Option (ℚ × List Char) :=
  let ds := l.takeWhile isDigitChar
  if ds.isEmpty then none
  else
    let rest := l.drop ds.length
    match rest with
    | '.' :: r2 =>
      let fs := r2.takeWhile isDigitChar
      if fs.isEmpty then some (ratOfParts ds [], rest)
      else some (ratOfParts ds fs, r2.drop fs.length)
    | _ => some (ratOfParts ds [], rest)

/-- The regex atom `\s*`. -/
def skipWs (l : List Char) : List Char := l.dropWhile isWsChar

/-- The regex atoms `\s*\$?\s*(\d+(?:\.\d+)?)`. -/
def dollarNum (l : List Char) : Option (ℚ × List Char) :=
  let l1 := skipWs l
  let l2 := match l1 with
    | '$' :: r => r
    | _ => l1
  matchNumber (skipWs l2)

/-- Match a literal alternative at the head of the input. -/
def stripKw (kw : List Char) (l : List Char) : Option (List Char) :=
  if kw.isPrefixOf l then some (l.drop kw.length) else none

/-- First successful alternative, in regex alternation order. -/
def firstSome {β : Type} : List (Option β) → Option β
  | [] => none
  | some b :: _ => some b
  | none :: rest => firstSome rest

/-- Pattern `(?:between|from)\s*\$?\s*(NUM)\s*(?:and|to|-)\s*\$?\s*(NUM)`
anchored at the current position. -/
def pat1At (l : List Char) : Option (ℚ × ℚ) :=
  firstSome (["between", "from"].map (fun kw =>
    match stripKw kw.toList l with
    | none => none
    | some l1 =>
      match dollarNum l1 with
      | none => none
      | some (a, l2) =>
        let l3 := skipWs l2
        firstSome (["and", "to", "-"].map (fun sep =>
          match stripKw sep.toList l3 with
          | none => none
          | some l4 =>
            match dollarNum l4 with
            | none => none
            | some (b, _) => some (a, b)))))

/-- Pattern `(?:under|below|less than|max(?:imum)?|<=|<)\s*\$?\s*(NUM)`
anchored at the current position (greedy `max(?:imum)?` tries the longer
spelling first). -/
def pat2At (l : List Char) : Option ℚ :=
  firstSome (["under", "below", "less than", "maximum", "max", "<=", "<"].map (fun kw =>
    match stripKw kw.toList l with
    | none => none
    | some l1 => (dollarNum l1).map (fun ab => ab.1)))

/-- Pattern `(?:over|above|more than|min(?:imum)?|at least|>=|>)\s*\$?\s*(NUM)`
anchored at the current position. -/
def pat3At (l : List Char) : Option ℚ :=
  firstSome (["over", "above", "more than", "minimum", "min", "at least", ">=", ">"].map (fun kw =>
    match stripKw kw.toList l with
    | none => none
    | some l1 => (dollarNum l1).map (fun ab => ab.1)))

/-- `re.search`: try the anchored pattern at each position, leftmost first. -/
def searchAux {β : Type} (f : List Char → Option β) : List Char → Option β
  | [] => f []
  | c :: rest =>
    match f (c :: rest) with
    | some r => some r
    | none => searchAux f rest

/-- `extract_price_constraints` of `src/main.py` (line 223). -/
def extract_price_constraints (q : String) : Option ℚ × Option ℚ :=
  let text := (pyLower q.toList).filter (fun c => c != ',')
  match searchAux pat1At text with
  | some (a, b) => if a ≤ b then (some a, some b) else (some b, some a)
  | none =>
    match searchAux pat2At text with
    | some n => (none, some n)
    | none =>
      match searchAux pat3At text with
      | some n => (some n, none)
      | none => (none, none)

/-! ### Filter reconciliation (`nlp_search`, lines 255-268) -/

/-- Lines 256-260: if the extractor produced a lower bound, it overrides the
model lower bound; the model upper bound is cleared when it equals the new
lower bound. -/
def overrideMin (f : Filters) (pm : Option ℚ) : Filters :=
  match pm with
  | none => f
  | some a => { f with price_min := some a,
                       price_max := if f.price_max = some a then none else f.price_max }

/-- Lines 261-264: symmetrically for an extracted upper bound. -/
def overrideMax (f : Filters) (pM : Option ℚ) : Filters :=
  match pM with
  | none => f
  | some b => { f with price_max := some b,
                       price_min := if f.price_min = some b then none else f.price_min }

/-- Lines 266-268: if both bounds are present and inverted, swap them. -/
def swapStep (f : Filters) : Filters :=
  match f.price_min, f.price_max with
  | some lo, some hi =>
    if hi < lo then { f with price_min := some hi, price_max := some lo } else f
  | some _, none => f
  | none, _ => f

/-- The reconciliation step of `nlp_search` (lines 256-268), parameterised by
the extractor output `(pmin, pmax)`: extractor override of each bound with
the equal-bound clearing of the opposite bound, then the inverted-range swap. -/
def reconcileWith (f : Filters) (pm pM : Option ℚ) : Filters :=
  swapStep (overrideMax (overrideMin f pm) pM)

/-- Lines 255-268 of `src/main.py`: run the extractor on the raw text and
reconcile the model-derived filter with its output. -/
def reconcile (f : Filters) (q : String) : Filters :=
  let pm := (extract_price_constraints q).1
  let pM := (extract_price_constraints q).2
  reconcileWith f pm pM

/-! ### Product model and the catalog filter engine (`apply_filters`, line 94) -/

/-- The FakeStore rating object `{"rate": float, "count": int}`. -/
structure Rating where
  rate : ℚ
  count : Int
  deriving DecidableEq, Repr

/-- `Product` pydantic model of `src/main.py` (line 30). -/
structure Product where
  id : Int
  title : String
  price : ℚ
  description : String
  category : String
  image : String
  rating : Option Rating := none
  deriving DecidableEq, Repr

/-- `(p.rating or {}).get("rate", 0)` (lines 105 and 124). -/
def ratingRate (p : Product) : ℚ :=
  match p.rating with
  | none => 0
  | some r => r.rate

/-- `f"{p.title} {p.description} {p.category}".lower()` (line 116). -/
def haystackChars (p : Product) : List Char :=
  pyLower (p.title ++ " " ++ p.description ++ " " ++ p.category).toList

/-- Price-window lower bound (lines 98-99). -/
def pminStage (f : Filters) (l : List Product) : List Product :=
  match f.price_min with
  | some a => l.filter (fun p => decide (a ≤ p.price))
  | none => l

/-- Price-window upper bound (lines 100-101). -/
def pmaxStage (f : Filters) (l : List Product) : List Product :=
  match f.price_max with
  | some b => l.filter (fun p => decide (p.price ≤ b))
  | none => l

/-- Rating threshold (lines 104-105), a missing rating read as 0. -/
def ratingStage (f : Filters) (l : List Product) : List Product :=
  match f.rating_min with
  | some r => l.filter (fun p => decide (r ≤ ratingRate p))
  | none => l

/-- Category filter (lines 108-110): `if f.categories` is the Python
non-emptiness test; membership is case-insensitive. -/
def catStage (f : Filters) (l : List Product) : List Product :=
  if f.categories.isEmpty then l
  else
    let cats := f.categories.map (fun c => String.mk (pyLower c.toList))
    l.filter (fun p => cats.contains (String.mk (pyLower p.category.toList)))

/-- Keyword filter (lines 113-117): every keyword, lowercased, must occur in
the lowercased title-description-category haystack. -/
def kwStage (f : Filters) (l : List Product) : List Product :=
  if f.keywords.isEmpty then l
  else
    let kws := f.keywords.map (fun k => pyLower k.toList)
    l.filter (fun p => kws.all (fun k => substrB k (haystackChars p)))

/-- `out.sort(key=lambda p: p.price)`: non-decreasing in the key `p.price`. -/
def priceAscR (p q : Product) : Prop := p.price ≤ q.price

instance : DecidableRel priceAscR := fun p q => inferInstanceAs (Decidable (p.price ≤ q.price))

instance : IsTotal Product priceAscR := ⟨fun p q => le_total p.price q.price⟩

instance : IsTrans Product priceAscR := ⟨fun _ _ _ h1 h2 => le_trans h1 h2⟩

/-- `out.sort(key=lambda p: -p.price)`: non-decreasing in the key `-p.price`. -/
def priceDescR (p q : Product) : Prop := -p.price ≤ -q.price

instance : DecidableRel priceDescR := fun p q => inferInstanceAs (Decidable (-p.price ≤ -q.price))

instance : IsTotal Product priceDescR := ⟨fun p q => le_total (-p.price) (-q.price)⟩

instance : IsTrans Product priceDescR := ⟨fun _ _ _ h1 h2 => le_trans h1 h2⟩

/-- `out.sort(key=lambda p: -float((p.rating or {}).get("rate", 0)))`. -/
def ratingDescR (p q : Product) : Prop := -(ratingRate p) ≤ -(ratingRate q)

instance : DecidableRel ratingDescR :=
  fun p q => inferInstanceAs (Decidable (-(ratingRate p) ≤ -(ratingRate q)))

instance : IsTotal Product ratingDescR := ⟨fun p q => le_total (-(ratingRate p)) (-(ratingRate q))⟩

instance : IsTrans Product ratingDescR := ⟨fun _ _ _ h1 h2 => le_trans h1 h2⟩

/-- The sort dispatch of `apply_filters` (lines 119-125); the Python `sort`
is stable, modelled by insertion sort; `relevance` leaves the order as is. -/
def sortStage (f : Filters) (l : List Product) : List Product :=
  if f.sort_by = "price_asc" then l.insertionSort priceAscR
  else if f.sort_by = "price_desc" then l.insertionSort priceDescR
  else if f.sort_by = "rating_desc" then l.insertionSort ratingDescR
  else l

/-- The filtering part of `apply_filters` (lines 95-117), before the sort. -/
def filteredProducts (products : List Product) (f : Filters) : List Product :=
  kwStage f (catStage f (ratingStage f (pmaxStage f (pminStage f products))))

/-- `apply_filters` of `src/main.py` (line 94). -/
def apply_filters (products : List Product) (f : Filters) : List Product :=
  sortStage f (filteredProducts products f)

/-! ### Heap model of `apply_filters` (mutation discipline, lines 94-127)

The Python function receives a reference to the caller-owned `products`
list.  `out = products[:]` allocates a copy; each executed list
comprehension rebinds `out` to a freshly allocated list; `out.sort(...)`
mutates in place the list `out` currently points to.  The heap is a list of
list objects, an address being an index; allocation appends a cell. -/

/-- The list object stored at address `i`. -/
def cellAt (h : List (List Product)) (i : Nat) : List Product := (h[i]?).getD []

/-- One `out = [p for p in out if ...]` step: when the stage is active
(`act = some g`), allocate a fresh cell holding the transformed list and
repoint `out` at it; otherwise nothing happens. -/
def allocStage (h : List (List Product)) (out : Nat)
    (act : Option (List Product → List Product)) : List (List Product) × Nat :=
  match act with
  | some g => (h ++ [g (cellAt h out)], h.length)
  | none => (h, out)

/-- Action of the price_min comprehension (lines 98-99). -/
def pminAct (f : Filters) : Option (List Product → List Product) :=
  match f.price_min with
  | some a => some (fun l => l.filter (fun p => decide (a ≤ p.price)))
  | none => none

/-- Action of the price_max comprehension (lines 100-101). -/
def pmaxAct (f : Filters) : Option (List Product → List Product) :=
  match f.price_max with
  | some b => some (fun l => l.filter (fun p => decide (p.price ≤ b)))
  | none => none

/-- Action of the rating comprehension (lines 104-105). -/
def ratingAct (f : Filters) : Option (List Product → List Product) :=
  match f.rating_min with
  | some r => some (fun l => l.filter (fun p => decide (r ≤ ratingRate p)))
  | none => none

/-- Action of the category comprehension (lines 108-110). -/
def catAct (f : Filters) : Option (List Product → List Product) :=
  if f.categories.isEmpty then none
  else
    let cats := f.categories.map (fun c => String.mk (pyLower c.toList))
    some (fun l => l.filter (fun p => cats.contains (String.mk (pyLower p.category.toList))))

/-- Action of the keyword comprehension (lines 113-117). -/
def kwAct (f : Filters) : Option (List Product → List Product) :=
  if f.keywords.isEmpty then none
  else
    let kws := f.keywords.map (fun k => pyLower k.toList)
    some (fun l => l.filter (fun p => kws.all (fun k => substrB k (haystackChars p))))

/-- `out.sort(...)` (lines 119-125): in-place mutation of the cell `out`
points to; no mutation at all in the `relevance` branch. -/
def sortHeap (f : Filters) (h : List (List Product)) (out : Nat) : List (List Product) :=
  if f.sort_by = "price_asc" then h.set out ((cellAt h out).insertionSort priceAscR)
  else if f.sort_by = "price_desc" then h.set out ((cellAt h out).insertionSort priceDescR)
  else if f.sort_by = "rating_desc" then h.set out ((cellAt h out).insertionSort ratingDescR)
  else h

/-- Apply a stage action to a plain list (the pure reading of one
comprehension). -/
def applyAct (act : Option (List Product → List Product)) (l : List Product) : List Product :=
  match act with
  | some g => g l
  | none => l

/-- The five comprehension stages of `apply_filters`, in source order. -/
def stageActs (f : Filters) : List (Option (List Product → List Product)) :=
  [pminAct f, pmaxAct f, ratingAct f, catAct f, kwAct f]

/-- Run a sequence of comprehension stages on the heap. -/
def runStages (h : List (List Product)) (out : Nat) :
    List (Option (List Product → List Product)) → List (List Product) × Nat
  | [] => (h, out)
  | act :: rest =>
    let s := allocStage h out act
    runStages s.1 s.2 rest

/-- `apply_filters` on the heap: read the argument cell, copy it
(`out = products[:]`), run the five comprehension stages, sort in place, and
return the final heap and the address of the returned list. -/
def apply_filters_heap (h : List (List Product)) (addr : Nat) (f : Filters) :
    List (List Product) × Nat :=
  let s0 : List (List Product) × Nat := (h ++ [cellAt h addr], h.length)
  let s5 := runStages s0.1 s0.2 (stageActs f)
  (sortHeap f s5.1 s5.2, s5.2)

/-! ### Intent resolver normalization (`call_mistral`, lines 216-220) -/

/-- The JSON object parsed out of the completion response, after the
pydantic typing of `Filters(**parsed)`; a missing `sort_by` key
(`parsed.get("sort_by")`) is `none`. -/
structure ParsedFilters where
  categories : List String := []
  keywords : List String := []
  price_min : Option ℚ := none
  price_max : Option ℚ := none
  rating_min : Option ℚ := none
  sort_by : Option String := none
  deriving DecidableEq, Repr

/-- Lines 216-220 of `src/main.py`: sanitize `sort_by`, build the `Filters`
model, then normalize the categories.  All other fields pass through. -/
def mkFilters (p : ParsedFilters) : Filters :=
  let f : Filters :=
    { categories := p.categories, keywords := p.keywords, price_min := p.price_min,
      price_max := p.price_max, rating_min := p.rating_min,
      sort_by := sanitize_sort_by p.sort_by }
  { f with categories := normalize_categories f.categories }

/-! ### The request handler (`nlp_search`, line 247) -/

/-- The two upstream network operations a request can perform. -/
inductive NetCall where
  | completion
  | catalogFetch
  deriving DecidableEq, Repr

/-- Outcome of the completion call plus the JSON-parsing of its response
text (lines 197-214): upstream non-200 status, unparseable text even after
the brace-extraction fallback, or a parsed filter object. -/
inductive CompletionReply where
  | httpError (body : String)
  | nonJson
  | parsed (p : ParsedFilters)
  deriving DecidableEq, Repr

/-- Outcome of the catalog fetch (lines 87-92). -/
inductive CatalogReply where
  | failure
  | ok (products : List Product)
  deriving DecidableEq, Repr

/-- An `HTTPException(status_code, detail)`. -/
structure HErr where
  status : Nat
  detail : String
  deriving DecidableEq, Repr

/-- `SearchResponse` pydantic model of `src/main.py` (line 39). -/
structure SearchResponse where
  filters : Filters
  count : Nat
  results : List Product
  deriving DecidableEq, Repr

/-- `(req.query or "").strip()` (line 248): the `or ""` matters only for a
Python `None`, which the typed `query: str` field rules out. -/
def strippedQuery (query : String) : String := String.mk (pyStrip query.toList)

/-- `nlp_search` of `src/main.py` (line 247), with the transport layers of
the two upstreams abstracted as oracle replies.  Returns the handler outcome
together with the list of network calls performed, in order. -/
def nlp_search (query : String) (comp : CompletionReply) (cat : CatalogReply) :
    Except HErr SearchResponse × List NetCall :=
  let q := strippedQuery query
  if q = "" then (Except.error ⟨400, "Missing query"⟩, [])
  else
    match comp with
    | .httpError body =>
      (Except.error ⟨502, "Ollama error: " ++ body⟩, [NetCall.completion])
    | .nonJson =>
      (Except.error ⟨500, "Model returned non-JSON."⟩, [NetCall.completion])
    | .parsed p =>
      let filters := reconcile (mkFilters p) q
      match cat with
      | .failure =>
        (Except.error ⟨500, "catalog fetch failed"⟩, [NetCall.completion, NetCall.catalogFetch])
      | .ok products =>
        let results := apply_filters products filters
        (Except.ok ⟨filters, results.length, results⟩, [NetCall.completion, NetCall.catalogFetch])

/-! ## Lemmas about the reconciliation combinators -/

theorem swapStep_ordered (g : Filters) (a b : ℚ)
    (ha : (swapStep g).price_min = some a) (hb : (swapStep g).price_max = some b) :
    a ≤ b := by
  obtain ⟨cs, ks, m, M, r, s⟩ := g
  cases m with
  | none => simp [swapStep] at ha
  | some lo =>
    cases M with
    | none => simp [swapStep] at hb
    | some hi =>
      simp only [swapStep] at ha hb
      split_ifs at ha hb with hlt
      · simp only [Option.some.injEq] at ha hb
        subst ha; subst hb
        exact le_of_lt hlt
      · simp only [Option.some.injEq] at ha hb
        subst ha; subst hb
        exact not_lt.mp hlt

theorem swapStep_idem (g : Filters) : swapStep (swapStep g) = swapStep g := by
  obtain ⟨cs, ks, m, M, r, s⟩ := g
  cases m with
  | none => cases M <;> rfl
  | some lo =>
    cases M with
    | none => rfl
    | some hi =>
      by_cases hlt : hi < lo
      · simp [swapStep, hlt, not_lt.mpr (le_of_lt hlt)]
      · simp [swapStep, hlt]

theorem overrideMin_rating (f : Filters) (pm : Option ℚ) :
    (overrideMin f pm).rating_min = f.rating_min := by
  cases pm <;> rfl

theorem overrideMax_rating (f : Filters) (pM : Option ℚ) :
    (overrideMax f pM).rating_min = f.rating_min := by
  cases pM <;> rfl

theorem swapStep_rating (g : Filters) : (swapStep g).rating_min = g.rating_min := by
  obtain ⟨cs, ks, m, M, r, s⟩ := g
  cases m <;> cases M <;> first
    | rfl
    | (simp only [swapStep]; split_ifs <;> rfl)

theorem reconcileWith_rating (f : Filters) (pm pM : Option ℚ) :
    (reconcileWith f pm pM).rating_min = f.rating_min := by
  unfold reconcileWith
  rw [swapStep_rating, overrideMax_rating, overrideMin_rating]

/-- Re-running the upper-bound override on its own result changes nothing:
the clearing step guarantees the lower bound no longer equals `b`. -/
theorem overrideMax_overrideMax (f : Filters) (b : ℚ) :
    overrideMax (overrideMax f (some b)) (some b) = overrideMax f (some b) := by
  obtain ⟨cs, ks, m, M, r, s⟩ := f
  by_cases hm : m = some b <;> simp [overrideMax, hm]

/-- Symmetrically for the lower-bound override. -/
theorem overrideMin_overrideMin (f : Filters) (a : ℚ) :
    overrideMin (overrideMin f (some a)) (some a) = overrideMin f (some a) := by
  obtain ⟨cs, ks, m, M, r, s⟩ := f
  by_cases hM : M = some a <;> simp [overrideMin, hM]

/-- Idempotence of the parameterised reconciliation, under the amended
hypothesis: the extractor produced both bounds or neither, or the
inverted-range swap did not fire. -/
theorem reconcileWith_idem (f : Filters) (pm pM : Option ℚ)
    (h : pm.isSome = pM.isSome ∨
      swapStep (overrideMax (overrideMin f pm) pM) = overrideMax (overrideMin f pm) pM) :
    reconcileWith (reconcileWith f pm pM) pm pM = reconcileWith f pm pM := by
  obtain ⟨cs, ks, m, M, r, s⟩ := f
  cases pm with
  | none =>
    cases pM with
    | none => exact swapStep_idem _
    | some b =>
      -- exactly one bound: use the no-swap hypothesis
      rcases h with h | h
      · simp at h
      · simp only [overrideMin] at h
        unfold reconcileWith
        simp only [overrideMin]
        rw [h, overrideMax_overrideMax]
        exact h
  | some a =>
    cases pM with
    | none =>
      rcases h with h | h
      · simp at h
      · simp only [overrideMax] at h
        unfold reconcileWith
        simp only [overrideMax]
        rw [h, overrideMin_overrideMin]
        exact h
    | some b =>
      -- both bounds extracted: idempotent without any hypothesis
      clear h
      by_cases hab : a = b
      · subst hab
        simp [reconcileWith, overrideMin, overrideMax, swapStep]
      · by_cases hba : b < a
        · simp [reconcileWith, overrideMin, overrideMax, swapStep, hab, hba,
            Ne.symm hab, not_lt.mpr (le_of_lt hba), lt_irrefl]
        · simp [reconcileWith, overrideMin, overrideMax, swapStep, hab, hba, Ne.symm hab]

/-! ## C1: reconciliation idempotence -/

/-- C1 counterexample: with the raw text "over $100" (extracted lower bound
100, no upper bound) and a model filter whose upper bound is 50, one
reconciliation yields (50, 100) but a second application yields (100, none):
the Filter Reconciler is not idempotent as claimed. -/
theorem reconcile_not_idempotent_cx :
    reconcile (reconcile { price_max := some 50 } "over $100") "over $100" ≠
      reconcile { price_max := some 50 } "over $100" := by decide

/-- C1 (amended): the Filter Reconciler is idempotent whenever the extractor
returned both bounds or neither, or the inverted-range swap did not fire on
the first application; with exactly one extracted bound inverted against the
model's opposite bound, a second application can change the result. -/
theorem reconcile_idempotent (f : Filters) (q : String)
    (h : (extract_price_constraints q).1.isSome = (extract_price_constraints q).2.isSome ∨
      swapStep (overrideMax (overrideMin f (extract_price_constraints q).1)
          (extract_price_constraints q).2) =
        overrideMax (overrideMin f (extract_price_constraints q).1)
          (extract_price_constraints q).2) :
    reconcile (reconcile f q) q = reconcile f q :=
  reconcileWith_idem f (extract_price_constraints q).1 (extract_price_constraints q).2 h

/-- C1 witness: on a text with no price phrase the reconciler is idempotent. -/
theorem reconcile_idempotent_witness :
    reconcile (reconcile { price_max := some 50 } "red dress") "red dress" =
      reconcile { price_max := some 50 } "red dress" :=
  reconcile_idempotent { price_max := some 50 } "red dress" (Or.inl (by decide))

/-! ## C2: reconciliation ordering invariant -/

/-- C2: after reconciliation (extractor overrides, equal-bound clearing and
the final swap), whenever both price bounds are set they are ordered. -/
theorem reconcile_price_ordered (f : Filters) (q : String) (a b : ℚ)
    (ha : (reconcile f q).price_min = some a) (hb : (reconcile f q).price_max = some b) :
    a ≤ b := by
  unfold reconcile reconcileWith at ha hb
  exact swapStep_ordered _ a b ha hb

/-- C2 witness: an inverted model range with no price phrase in the text is
swapped into an ordered one. -/
theorem reconcile_price_ordered_witness : (3 : ℚ) ≤ 5 :=
  reconcile_price_ordered { price_min := some 5, price_max := some 3 } "red dress" 3 5
    (by decide) (by decide)

/-! ## C3: the extractor reference vectors -/

/-- C3: four of the five reference vectors hold, but the bare-dash range
form does not: the range regex demands a "between"/"from" prefix, so
"$50-$20" extracts (none, none), not the claimed swapped pair (20, 50). -/
theorem extract_price_constraints_vectors :
    extract_price_constraints "between $20 and $50" = (some 20, some 50) ∧
    extract_price_constraints "under $100" = (none, some 100) ∧
    extract_price_constraints "over $100" = (some 100, none) ∧
    extract_price_constraints "no price info" = (none, none) ∧
    extract_price_constraints "$50-$20" = (none, none) := by
  refine ⟨by decide, by decide, by decide, by decide, by decide⟩

/-! ## C8: the rating bound is not validated -/

/-- C8 counterexample: a model reply with rating_min = 7 flows through the
resolver normalization and the reconciler unchanged, so the pipeline's
Filter carries a rating_min outside [0, 5]. -/
theorem rating_min_not_bounded_cx :
    ¬ ∀ (p : ParsedFilters) (q : String) (a : ℚ),
        (reconcile (mkFilters p) q).rating_min = some a → 0 ≤ a ∧ a ≤ 5 := by
  intro h
  have h7 := h { rating_min := some 7 } "red dress" 7 (by decide)
  have : ¬ ((7 : ℚ) ≤ 5) := by norm_num
  exact this h7.2

/-- C8 (amended): the pipeline passes rating_min through unchanged (neither
the resolver normalization nor the reconciler modifies it), so the value
reaching the engine lies in [0, 5] exactly when the model-reported value
does. -/
theorem rating_min_passthrough (p : ParsedFilters) (q : String) :
    (reconcile (mkFilters p) q).rating_min = p.rating_min ∧
    (∀ a, p.rating_min = some a → 0 ≤ a ∧ a ≤ 5 →
      ∀ b, (reconcile (mkFilters p) q).rating_min = some b → 0 ≤ b ∧ b ≤ 5) := by
  have hpass : (reconcile (mkFilters p) q).rating_min = p.rating_min := by
    unfold reconcile
    rw [reconcileWith_rating]
    rfl
  refine ⟨hpass, ?_⟩
  intro a ha hbnd b hb
  rw [hpass, ha] at hb
  cases hb
  exact hbnd

/-- C8 witness: a rating_min of 4 from the model survives in range. -/
theorem rating_min_passthrough_witness :
    (0 : ℚ) ≤ 4 ∧ (4 : ℚ) ≤ 5 :=
  (rating_min_passthrough { rating_min := some 4 } "red dress").2 4 rfl
    (by norm_num) 4 (by decide)

/-! ## C9: empty query fails fast with no network calls -/

/-- C9: a query that strips to the empty string is rejected with the 400
client error and the handler performs zero network calls. -/
theorem nlp_search_empty_query (query : String) (comp : CompletionReply) (cat : CatalogReply)
    (h : strippedQuery query = "") :
    nlp_search query comp cat = (Except.error ⟨400, "Missing query"⟩, []) := by
  unfold nlp_search
  rw [h]
  rfl

/-- C9 witness: the empty query itself. -/
theorem nlp_search_empty_query_witness :
    nlp_search "" (CompletionReply.parsed {}) (CatalogReply.ok []) =
      (Except.error ⟨400, "Missing query"⟩, []) :=
  nlp_search_empty_query "" (CompletionReply.parsed {}) (CatalogReply.ok []) (by decide)

/-! ## C4: the sort sanitizer -/

theorem mem_of_containsStr {l : List String} {a : String} (h : l.contains a = true) : a ∈ l := by
  simpa using h

/-- C4: for every input the Sort Sanitizer returns one of the four allowed
values; an absent or empty input yields relevance; below the passthrough of
an already-allowed value, the heuristic phrases are matched in priority
order rating phrases, then "cheap", then "expensive", anything else giving
relevance. -/
theorem sanitize_sort_by_spec (value : Option String) :
    sanitize_sort_by value ∈ ALLOWED_SORT ∧
    ((value = none ∨ value = some "") → sanitize_sort_by value = "relevance") ∧
    ∀ s, value = some s → s ≠ "" →
      ALLOWED_SORT.contains (String.mk (pyStrip (pyLower s.toList))) = false →
      ((heurRating (pyStrip (pyLower s.toList)) = true →
        sanitize_sort_by value = "rating_desc") ∧
      (heurRating (pyStrip (pyLower s.toList)) = false →
        substrB "cheap".toList (pyStrip (pyLower s.toList)) = true →
        sanitize_sort_by value = "price_asc") ∧
      (heurRating (pyStrip (pyLower s.toList)) = false →
        substrB "cheap".toList (pyStrip (pyLower s.toList)) = false →
        substrB "expensive".toList (pyStrip (pyLower s.toList)) = true →
        sanitize_sort_by value = "price_desc") ∧
      (heurRating (pyStrip (pyLower s.toList)) = false →
        substrB "cheap".toList (pyStrip (pyLower s.toList)) = false →
        substrB "expensive".toList (pyStrip (pyLower s.toList)) = false →
        sanitize_sort_by value = "relevance")) := by
  refine ⟨?_, ?_, ?_⟩
  · cases value with
    | none => decide
    | some s =>
      by_cases hs : s = ""
      · subst hs; decide
      · simp only [sanitize_sort_by, if_neg hs]
        split_ifs with h1 h2 h3 h4
        · exact mem_of_containsStr h1
        · decide
        · decide
        · decide
        · decide
  · intro hv
    rcases hv with rfl | rfl
    · rfl
    · decide
  · intro s hv hs hcon
    subst hv
    refine ⟨?_, ?_, ?_, ?_⟩
    · intro hR
      simp only [sanitize_sort_by]
      rw [if_neg hs, hcon, hR]
      simp
    · intro hR hC
      simp only [sanitize_sort_by]
      rw [if_neg hs, hcon, hR, hC]
      simp
    · intro hR hC hE
      simp only [sanitize_sort_by]
      rw [if_neg hs, hcon, hR, hC, hE]
      simp
    · intro hR hC hE
      simp only [sanitize_sort_by]
      rw [if_neg hs, hcon, hR, hC, hE]
      simp

/-- C4 witness: the "cheap" heuristic on a non-allowed input. -/
theorem sanitize_sort_by_spec_witness :
    sanitize_sort_by (some "CHEAP stuff") = "price_asc" :=
  ((sanitize_sort_by_spec (some "CHEAP stuff")).2.2 "CHEAP stuff" rfl (by decide)
    (by decide)).2.1 (by decide) (by decide)

/-! ## C5: the category normalizer -/

theorem synGet_valid {s x : String} (h : synGet s = some x) : x ∈ VALID_CATEGORIES := by
  unfold synGet at h
  cases hl : CATEGORY_SYNONYMS.lookup s with
  | none =>
    rw [hl] at h
    split_ifs at h with hc
    cases h
    exact mem_of_containsStr hc
  | some v =>
    rw [hl] at h
    subst h
    obtain ⟨l₁, l₂, he, -⟩ := List.lookup_eq_some_iff.mp hl
    have hmem : (s, some x) ∈ CATEGORY_SYNONYMS := by
      rw [he]
      exact List.mem_append_right _ (List.mem_cons_self _ _)
    simp only [CATEGORY_SYNONYMS, List.mem_cons, List.not_mem_nil, or_false,
      Prod.mk.injEq] at hmem
    rcases hmem with ⟨-, h⟩ | ⟨-, h⟩ | ⟨-, h⟩ | ⟨-, h⟩ | ⟨-, h⟩ | ⟨-, h⟩ | ⟨-, h⟩
      | ⟨-, h⟩ | ⟨-, h⟩ <;> (cases h <;> decide)

theorem synGet_self_of_valid (c : String) (h : c ∈ VALID_CATEGORIES) :
    synGet (String.mk (pyStrip (pyLower c.toList))) = some c := by
  simp only [VALID_CATEGORIES, List.mem_cons, List.not_mem_nil, or_false] at h
  rcases h with rfl | rfl | rfl | rfl <;> decide

/-- C5: the Category Normalizer returns a sorted, deduplicated list whose
every element is a valid catalog category; strings already equal to a known
catalog category pass through; synonyms mapping to a category absent from
the catalog ("shoes", "clothes") are silently dropped. -/
theorem normalize_categories_spec (cats : List String) :
    (normalize_categories cats).Sorted strLe ∧
    (normalize_categories cats).Nodup ∧
    (∀ x ∈ normalize_categories cats, x ∈ VALID_CATEGORIES) ∧
    (∀ c ∈ cats, c ∈ VALID_CATEGORIES → c ∈ normalize_categories cats) ∧
    normalize_categories ["shoes", "clothes"] = [] := by
  refine ⟨?_, ?_, ?_, ?_, by decide⟩
  · exact List.sorted_insertionSort strLe _
  · exact (List.perm_insertionSort strLe _).symm.nodup (List.nodup_dedup _)
  · intro x hx
    simp only [normalize_categories, List.mem_insertionSort, List.mem_dedup,
      List.mem_filterMap] at hx
    obtain ⟨c, -, hsyn⟩ := hx
    exact synGet_valid hsyn
  · intro c hc hval
    simp only [normalize_categories, List.mem_insertionSort, List.mem_dedup,
      List.mem_filterMap]
    exact ⟨c, hc, synGet_self_of_valid c hval⟩

/-- C5 witness: a known catalog category passes through and the absent-from-
catalog synonyms are dropped. -/
theorem normalize_categories_spec_witness :
    "electronics" ∈ normalize_categories ["electronics", "shoes"] :=
  (normalize_categories_spec ["electronics", "shoes"]).2.2.2.1 "electronics"
    (by decide) (by decide)

/-! ## C6: soundness of the filter predicates -/

theorem mem_pminStage {f : Filters} {l : List Product} {p : Product} (h : p ∈ pminStage f l) :
    p ∈ l ∧ ∀ a, f.price_min = some a → a ≤ p.price := by
  cases hm : f.price_min with
  | none =>
    rw [pminStage, hm] at h
    exact ⟨h, fun a ha => by cases ha⟩
  | some a =>
    rw [pminStage, hm] at h
    have hf := List.mem_filter.mp h
    refine ⟨hf.1, fun b hb => ?_⟩
    cases hb
    exact of_decide_eq_true hf.2

theorem mem_pmaxStage {f : Filters} {l : List Product} {p : Product} (h : p ∈ pmaxStage f l) :
    p ∈ l ∧ ∀ b, f.price_max = some b → p.price ≤ b := by
  cases hm : f.price_max with
  | none =>
    rw [pmaxStage, hm] at h
    exact ⟨h, fun b hb => by cases hb⟩
  | some b =>
    rw [pmaxStage, hm] at h
    have hf := List.mem_filter.mp h
    refine ⟨hf.1, fun c hc => ?_⟩
    cases hc
    exact of_decide_eq_true hf.2

theorem mem_ratingStage {f : Filters} {l : List Product} {p : Product} (h : p ∈ ratingStage f l) :
    p ∈ l ∧ ∀ r, f.rating_min = some r → r ≤ ratingRate p := by
  cases hm : f.rating_min with
  | none =>
    rw [ratingStage, hm] at h
    exact ⟨h, fun r hr => by cases hr⟩
  | some r =>
    rw [ratingStage, hm] at h
    have hf := List.mem_filter.mp h
    refine ⟨hf.1, fun c hc => ?_⟩
    cases hc
    exact of_decide_eq_true hf.2

theorem mem_catStage {f : Filters} {l : List Product} {p : Product} (h : p ∈ catStage f l) :
    p ∈ l ∧ (f.categories ≠ [] →
      (f.categories.map (fun c => String.mk (pyLower c.toList))).contains
        (String.mk (pyLower p.category.toList)) = true) := by
  by_cases hc : f.categories.isEmpty
  · rw [catStage, if_pos hc] at h
    exact ⟨h, fun hne => absurd (List.isEmpty_iff.mp hc) hne⟩
  · rw [catStage, if_neg hc] at h
    have hf := List.mem_filter.mp h
    exact ⟨hf.1, fun _ => hf.2⟩

theorem mem_kwStage {f : Filters} {l : List Product} {p : Product} (h : p ∈ kwStage f l) :
    p ∈ l ∧ (f.keywords ≠ [] → ∀ k, k ∈ f.keywords →
      substrB (pyLower k.toList) (haystackChars p) = true) := by
  by_cases hc : f.keywords.isEmpty
  · rw [kwStage, if_pos hc] at h
    exact ⟨h, fun hne => absurd (List.isEmpty_iff.mp hc) hne⟩
  · rw [kwStage, if_neg hc] at h
    have hf := List.mem_filter.mp h
    refine ⟨hf.1, fun _ k hk => ?_⟩
    have hall := List.all_eq_true.mp hf.2
    exact hall (pyLower k.toList) (List.mem_map.mpr ⟨k, hk, rfl⟩)

theorem mem_sortStage {f : Filters} {l : List Product} {p : Product} :
    p ∈ sortStage f l ↔ p ∈ l := by
  unfold sortStage
  split_ifs <;> simp [List.mem_insertionSort]

/-- C6: every product returned by the Catalog Filter Engine is a catalog
product satisfying the conjunction of the active predicates: the price
window, the rating floor (a missing rating read as 0 through ratingRate),
case-insensitive category membership, and case-insensitive containment of
every keyword in the title-description-category haystack. -/
theorem apply_filters_sound (products : List Product) (f : Filters) (p : Product)
    (hp : p ∈ apply_filters products f) :
    p ∈ products ∧
    (∀ a, f.price_min = some a → a ≤ p.price) ∧
    (∀ b, f.price_max = some b → p.price ≤ b) ∧
    (∀ r, f.rating_min = some r → r ≤ ratingRate p) ∧
    (f.categories ≠ [] →
      (f.categories.map (fun c => String.mk (pyLower c.toList))).contains
        (String.mk (pyLower p.category.toList)) = true) ∧
    (f.keywords ≠ [] → ∀ k, k ∈ f.keywords →
      substrB (pyLower k.toList) (haystackChars p) = true) := by
  rw [apply_filters, mem_sortStage, filteredProducts] at hp
  obtain ⟨hp, hkw⟩ := mem_kwStage hp
  obtain ⟨hp, hcat⟩ := mem_catStage hp
  obtain ⟨hp, hrat⟩ := mem_ratingStage hp
  obtain ⟨hp, hmax⟩ := mem_pmaxStage hp
  obtain ⟨hp, hmin⟩ := mem_pminStage hp
  exact ⟨hp, hmin, hmax, hrat, hcat, hkw⟩

/-- A small concrete catalog for the witnesses. -/
def demoA : Product :=
  { id := 1, title := "Blue Shirt", price := 10, description := "cotton shirt",
    category := "men\x27s clothing", image := "imgA", rating := some { rate := 4, count := 100 } }

/-- A second concrete product for the witnesses. -/
def demoB : Product :=
  { id := 2, title := "Gold Ring", price := 30, description := "shiny ring",
    category := "jewelery", image := "imgB", rating := none }

/-- C6 witness: with price_max = 100 the returned product demoA satisfies
the window. -/
theorem apply_filters_sound_witness : demoA.price ≤ 100 :=
  (apply_filters_sound [demoA, demoB] { price_max := some 100 } demoA (by decide)).2.2.1
    100 rfl

/-! ## C7: the sort contract of the engine -/

theorem pminStage_sublist (f : Filters) (l : List Product) : pminStage f l <+ l := by
  cases hm : f.price_min with
  | none => rw [pminStage, hm]
  | some a => rw [pminStage, hm]; exact List.filter_sublist l

theorem pmaxStage_sublist (f : Filters) (l : List Product) : pmaxStage f l <+ l := by
  cases hm : f.price_max with
  | none => rw [pmaxStage, hm]
  | some a => rw [pmaxStage, hm]; exact List.filter_sublist l

theorem ratingStage_sublist (f : Filters) (l : List Product) : ratingStage f l <+ l := by
  cases hm : f.rating_min with
  | none => rw [ratingStage, hm]
  | some a => rw [ratingStage, hm]; exact List.filter_sublist l

theorem catStage_sublist (f : Filters) (l : List Product) : catStage f l <+ l := by
  by_cases hc : f.categories.isEmpty
  · rw [catStage, if_pos hc]
  · rw [catStage, if_neg hc]; exact List.filter_sublist l

theorem kwStage_sublist (f : Filters) (l : List Product) : kwStage f l <+ l := by
  by_cases hc : f.keywords.isEmpty
  · rw [kwStage, if_pos hc]
  · rw [kwStage, if_neg hc]; exact List.filter_sublist l

theorem filteredProducts_sublist (products : List Product) (f : Filters) :
    filteredProducts products f <+ products := by
  rw [filteredProducts]
  exact ((((kwStage_sublist f _).trans (catStage_sublist f _)).trans
    (ratingStage_sublist f _)).trans (pmaxStage_sublist f _)).trans (pminStage_sublist f _)

/-- Stability of the modelled stable sort with respect to a sort key: the
sorted list restricted to one key value is exactly the input restricted to
that key value, i.e. ties keep their original relative order. -/
theorem insertionSort_filter_key {κ : Type} [DecidableEq κ] (key : Product → κ)
    (r : Product → Product → Prop) [DecidableRel r] (hr : ∀ a b, key a = key b → r a b)
    (l : List Product) (k : κ) :
    (l.insertionSort r).filter (fun x => decide (key x = k)) =
      l.filter (fun x => decide (key x = k)) := by
  have hkey : ∀ x ∈ l.filter (fun x => decide (key x = k)), key x = k := by
    intro x hx
    exact of_decide_eq_true (List.mem_filter.mp hx).2
  have hsub : l.filter (fun x => decide (key x = k)) <+ l.insertionSort r := by
    apply List.sublist_insertionSort
    · exact List.pairwise_of_forall_mem_list
        (fun a ha b hb => hr a b (by rw [hkey a ha, hkey b hb]))
    · exact List.filter_sublist l
  have hsub2 : l.filter (fun x => decide (key x = k)) <+
      (l.insertionSort r).filter (fun x => decide (key x = k)) := by
    have h2 := hsub.filter (fun x => decide (key x = k))
    rwa [List.filter_eq_self.mpr (fun a ha => decide_eq_true (hkey a ha))] at h2
  have hlen : ((l.insertionSort r).filter (fun x => decide (key x = k))).length =
      (l.filter (fun x => decide (key x = k))).length :=
    ((List.perm_insertionSort r l).filter _).length_eq
  exact (hsub2.eq_of_length hlen.symm).symm

/-- C7: the engine sort behaves as specified: price_asc sorts by
non-decreasing price, price_desc by non-increasing price, rating_desc by
non-increasing rating with a missing rating read as 0, relevance leaves the
filtered list untouched (which is itself a sublist of the catalog, hence in
catalog order), and in all sorted cases products tied on the sort key keep
their original relative order. -/
theorem apply_filters_sort_spec (products : List Product) (f : Filters) :
    (f.sort_by = "price_asc" →
      (apply_filters products f).Sorted priceAscR ∧
      ∀ k : ℚ, (apply_filters products f).filter (fun p => decide (p.price = k)) =
        (filteredProducts products f).filter (fun p => decide (p.price = k))) ∧
    (f.sort_by = "price_desc" →
      (apply_filters products f).Sorted priceDescR ∧
      ∀ k : ℚ, (apply_filters products f).filter (fun p => decide (p.price = k)) =
        (filteredProducts products f).filter (fun p => decide (p.price = k))) ∧
    (f.sort_by = "rating_desc" →
      (apply_filters products f).Sorted ratingDescR ∧
      ∀ k : ℚ, (apply_filters products f).filter (fun p => decide (ratingRate p = k)) =
        (filteredProducts products f).filter (fun p => decide (ratingRate p = k))) ∧
    (f.sort_by = "relevance" → apply_filters products f = filteredProducts products f) ∧
    filteredProducts products f <+ products := by
  refine ⟨?_, ?_, ?_, ?_, filteredProducts_sublist products f⟩
  · intro h
    have he : apply_filters products f =
        (filteredProducts products f).insertionSort priceAscR := by
      rw [apply_filters, sortStage, if_pos h]
    rw [he]
    exact ⟨List.sorted_insertionSort priceAscR _,
      fun k => insertionSort_filter_key (fun p => p.price) priceAscR
        (fun a b hab => le_of_eq hab) _ k⟩
  · intro h
    have he : apply_filters products f =
        (filteredProducts products f).insertionSort priceDescR := by
      rw [apply_filters, sortStage, if_neg (by rw [h]; decide), if_pos h]
    rw [he]
    exact ⟨List.sorted_insertionSort priceDescR _,
      fun k => insertionSort_filter_key (fun p => p.price) priceDescR
        (fun a b hab => le_of_eq (congrArg (fun x : ℚ => -x) hab)) _ k⟩
  · intro h
    have he : apply_filters products f =
        (filteredProducts products f).insertionSort ratingDescR := by
      rw [apply_filters, sortStage, if_neg (by rw [h]; decide), if_neg (by rw [h]; decide),
        if_pos h]
    rw [he]
    exact ⟨List.sorted_insertionSort ratingDescR _,
      fun k => insertionSort_filter_key (fun p => ratingRate p) ratingDescR
        (fun a b hab => le_of_eq (congrArg (fun x : ℚ => -x) hab)) _ k⟩
  · intro h
    rw [apply_filters, sortStage, if_neg (by rw [h]; decide), if_neg (by rw [h]; decide),
      if_neg (by rw [h]; decide)]

/-- C7 witness: a price_asc sort of the demo catalog is sorted by price. -/
theorem apply_filters_sort_spec_witness :
    (apply_filters [demoB, demoA] { sort_by := "price_asc" }).Sorted priceAscR :=
  ((apply_filters_sort_spec [demoB, demoA] { sort_by := "price_asc" }).1 rfl).1

/-! ## C10: the engine does not mutate its input list -/

theorem allocStage_length_le (h : List (List Product)) (out : Nat)
    (act : Option (List Product → List Product)) :
    h.length ≤ (allocStage h out act).1.length := by
  cases act <;> simp [allocStage]

theorem allocStage_frame (h : List (List Product)) (out : Nat)
    (act : Option (List Product → List Product)) (i : Nat) (hi : i < h.length) :
    cellAt (allocStage h out act).1 i = cellAt h i := by
  cases act with
  | none => rfl
  | some g => simp [allocStage, cellAt, List.getElem?_append_left hi]

theorem allocStage_out_lt (h : List (List Product)) (out : Nat)
    (act : Option (List Product → List Product)) (ho : out < h.length) :
    (allocStage h out act).2 < (allocStage h out act).1.length := by
  cases act with
  | none => simpa [allocStage] using ho
  | some g => simp [allocStage]

theorem allocStage_out_le (h : List (List Product)) (out : Nat)
    (act : Option (List Product → List Product)) (ho : out < h.length) :
    out ≤ (allocStage h out act).2 := by
  cases act with
  | none => simp [allocStage]
  | some g => simp [allocStage]; omega

theorem allocStage_content (h : List (List Product)) (out : Nat)
    (act : Option (List Product → List Product)) :
    cellAt (allocStage h out act).1 (allocStage h out act).2 = applyAct act (cellAt h out) := by
  cases act with
  | none => rfl
  | some g => simp [allocStage, applyAct, cellAt, List.getElem?_concat_length]

/-- Invariants of the comprehension stages on the heap: the heap only grows,
the `out` pointer stays in bounds and never moves backwards, every
pre-existing cell is untouched, and the final `out` cell holds the composite
of the stage actions. -/
theorem runStages_spec (acts : List (Option (List Product → List Product))) :
    ∀ (h : List (List Product)) (out : Nat), out < h.length →
      h.length ≤ (runStages h out acts).1.length ∧
      (runStages h out acts).2 < (runStages h out acts).1.length ∧
      out ≤ (runStages h out acts).2 ∧
      (∀ i, i < h.length → cellAt (runStages h out acts).1 i = cellAt h i) ∧
      cellAt (runStages h out acts).1 (runStages h out acts).2 =
        acts.foldl (fun l act => applyAct act l) (cellAt h out) := by
  induction acts with
  | nil =>
    intro h out ho
    exact ⟨le_refl _, ho, le_refl _, fun i _ => rfl, rfl⟩
  | cons act rest ih =>
    intro h out ho
    have hstep : runStages h out (act :: rest) =
        runStages (allocStage h out act).1 (allocStage h out act).2 rest := rfl
    have hs1 := allocStage_length_le h out act
    have hs2 := allocStage_out_lt h out act ho
    obtain ⟨ih1, ih2, ih3, ih4, ih5⟩ := ih (allocStage h out act).1 (allocStage h out act).2 hs2
    rw [hstep]
    refine ⟨le_trans hs1 ih1, ih2, le_trans (allocStage_out_le h out act ho) ih3, ?_, ?_⟩
    · intro i hi
      rw [ih4 i (lt_of_lt_of_le hi hs1), allocStage_frame h out act i hi]
    · rw [ih5, allocStage_content, List.foldl_cons]

theorem sortHeap_frame (f : Filters) (h : List (List Product)) (out i : Nat) (hne : i ≠ out) :
    cellAt (sortHeap f h out) i = cellAt h i := by
  unfold sortHeap
  split_ifs <;> simp [cellAt, List.getElem?_set_ne (Ne.symm hne)]

theorem sortHeap_content (f : Filters) (h : List (List Product)) (out : Nat)
    (ho : out < h.length) :
    cellAt (sortHeap f h out) out = sortStage f (cellAt h out) := by
  unfold sortHeap sortStage
  split_ifs <;> simp [cellAt, List.getElem?_set_self ho]

theorem applyAct_pmin (f : Filters) (l : List Product) :
    applyAct (pminAct f) l = pminStage f l := by
  cases hm : f.price_min <;> simp [applyAct, pminAct, pminStage, hm]

theorem applyAct_pmax (f : Filters) (l : List Product) :
    applyAct (pmaxAct f) l = pmaxStage f l := by
  cases hm : f.price_max <;> simp [applyAct, pmaxAct, pmaxStage, hm]

theorem applyAct_rating (f : Filters) (l : List Product) :
    applyAct (ratingAct f) l = ratingStage f l := by
  cases hm : f.rating_min <;> simp [applyAct, ratingAct, ratingStage, hm]

theorem applyAct_cat (f : Filters) (l : List Product) :
    applyAct (catAct f) l = catStage f l := by
  by_cases hc : f.categories.isEmpty <;> simp [applyAct, catAct, catStage, hc]

theorem applyAct_kw (f : Filters) (l : List Product) :
    applyAct (kwAct f) l = kwStage f l := by
  by_cases hc : f.keywords.isEmpty <;> simp [applyAct, kwAct, kwStage, hc]

theorem foldl_stageActs (f : Filters) (l : List Product) :
    (stageActs f).foldl (fun acc act => applyAct act acc) l = filteredProducts l f := by
  simp only [stageActs, List.foldl_cons, List.foldl_nil]
  rw [applyAct_pmin, applyAct_pmax, applyAct_rating, applyAct_cat, applyAct_kw,
    filteredProducts]

/-- C10: the heap rendering of apply_filters leaves the caller-owned input
list object untouched (the in-place sort hits only the freshly allocated
copy), and the returned cell holds exactly the pure apply_filters result. -/
theorem apply_filters_heap_frame (h : List (List Product)) (addr : Nat) (f : Filters)
    (haddr : addr < h.length) :
    cellAt (apply_filters_heap h addr f).1 addr = cellAt h addr ∧
    cellAt (apply_filters_heap h addr f).1 (apply_filters_heap h addr f).2 =
      apply_filters (cellAt h addr) f := by
  have h0len : h.length < (h ++ [cellAt h addr]).length := by simp
  obtain ⟨r1, r2, r3, r4, r5⟩ :=
    runStages_spec (stageActs f) (h ++ [cellAt h addr]) h.length h0len
  have haddr_lt : addr < (h ++ [cellAt h addr]).length := by
    simp only [List.length_append, List.length_cons, List.length_nil]
    omega
  have haddr_ne : addr ≠ (runStages (h ++ [cellAt h addr]) h.length (stageActs f)).2 := by
    have := r3
    omega
  have hcopy : cellAt (h ++ [cellAt h addr]) h.length = cellAt h addr := by
    simp [cellAt, List.getElem?_concat_length]
  constructor
  · show cellAt (sortHeap f (runStages (h ++ [cellAt h addr]) h.length (stageActs f)).1
      (runStages (h ++ [cellAt h addr]) h.length (stageActs f)).2) addr = cellAt h addr
    rw [sortHeap_frame _ _ _ _ haddr_ne, r4 addr haddr_lt]
    simp [cellAt, List.getElem?_append_left haddr]
  · show cellAt (sortHeap f (runStages (h ++ [cellAt h addr]) h.length (stageActs f)).1
      (runStages (h ++ [cellAt h addr]) h.length (stageActs f)).2)
        (runStages (h ++ [cellAt h addr]) h.length (stageActs f)).2 =
      apply_filters (cellAt h addr) f
    rw [sortHeap_content f _ _ r2, r5, hcopy, foldl_stageActs, apply_filters]

/-- C10 witness: a concrete one-cell heap. -/
theorem apply_filters_heap_frame_witness :
    cellAt (apply_filters_heap [[demoA, demoB]] 0 {}).1 0 = cellAt [[demoA, demoB]] 0 ∧
    cellAt (apply_filters_heap [[demoA, demoB]] 0 {}).1
        (apply_filters_heap [[demoA, demoB]] 0 {}).2 =
      apply_filters (cellAt [[demoA, demoB]] 0) {} :=
  apply_filters_heap_frame [[demoA, demoB]] 0 {} (by decide)

end PyNlp
